import Mathlib

/-!
Shallow embedding of `src/main.rs` of the Crustsidian repository
(an "obsidian-tasks" CLI: scan a vault directory for `.md` note files,
extract YAML frontmatter, decode each into a `Task`, filter and count).

Modelling choices:
* `chrono::NaiveDate` is modelled as `Int` (a totally ordered calendar
  date; only equality and strict order on dates are used by the code).
* Rust `str::lines` is modelled by `rustLines` on `List Char`
  (structural recursion, so concrete inputs evaluate in the kernel):
  lines are split at `'\n'`; a line that was terminated by `'\n'` also
  drops one trailing `'\r'`; a final line without a terminating `'\n'`
  keeps a trailing `'\r'`; the empty input has no lines and a trailing
  newline produces no extra empty line.
* Rust `str::to_lowercase` is modelled by per-character ASCII
  lowercasing (the comparisons in the code are against the ASCII
  tokens `done`, `completed`, `x`, `md`).
* The filesystem is abstracted as a record `FS` of the three
  primitives the code uses: path existence, directory test, and the
  ordered sequence of entries produced by the recursive walk.
* The third-party `serde_yaml` deserializer is not part of this
  repository's sources; it is modelled from the spec below
  (`parseYamlTask`).
-/

namespace Crustsidian

/-- Model of `chrono::NaiveDate`: a totally ordered calendar date. -/
abbrev NaiveDate := Int

/-- Model of Rust `str::to_lowercase` (ASCII letters lowercased; the
code only ever compares the result against ASCII tokens). -/
def to_lowercase (s : String) : String := ⟨s.data.map Char.toLower⟩

/-- The `Task` struct of `main.rs` (serde field aliases noted): `filename`
is `#[serde(skip)]`-ed and assigned by the collector, `date_created` is
the `dateCreated` field, `completed_date` is `completedDate`,
`task_source_type` is `taskSourceType`. -/
structure Task where
  filename : String
  status : String
  priority : Option String := none
  date_created : Option String := none
  tags : List String := []
  projects : List String := []
  due : Option NaiveDate := none
  completed_date : Option NaiveDate := none
  task_source_type : Option String := none
deriving DecidableEq

/-- `Task::is_done`: lowercased status equals `done`, `completed` or `x`. -/
def Task.is_done (t : Task) : Bool :=
  let s := to_lowercase t.status
  s == "done" || s == "completed" || s == "x"

/-- `Task::is_due_today`, with the ambient `Local::now().date_naive()`
made an explicit parameter `today`. -/
def Task.is_due_today (today : NaiveDate) (t : Task) : Bool :=
  match t.due with
  | some due => due == today
  | none => false

/-- `Task::is_overdue`: a due date strictly before `today` and not done. -/
def Task.is_overdue (today : NaiveDate) (t : Task) : Bool :=
  match t.due with
  | some due => !t.is_done && decide (due < today)
  | none => false

/-- `Task::is_completed_today`. -/
def Task.is_completed_today (today : NaiveDate) (t : Task) : Bool :=
  match t.completed_date with
  | some completed => completed == today
  | none => false

/-- One step of `rustLines`: `cur` holds the characters of the current
line in reverse. At a `'\n'` the line is emitted with one trailing
`'\r'` removed; at the end of input a nonempty current line is emitted
as is (no `'\r'` stripping, as in Rust's `str::lines`). -/
def rustLinesGo (cur : List Char) : List Char → List (List Char)
  | [] => if cur.isEmpty then [] else [cur.reverse]
  | c :: cs =>
    if c = '\n' then
      (match cur with
       | '\r' :: cur2 => cur2.reverse
       | _ => cur.reverse) :: rustLinesGo [] cs
    else rustLinesGo (c :: cur) cs

/-- Model of Rust `str::lines` on the character list of the string. -/
def rustLines (s : List Char) : List (List Char) := rustLinesGo [] s

/-- `Vec::<&str>::join("\n")` on the lines. -/
def joinNl : List (List Char) → List Char
  | [] => []
  | [l] => l
  | l :: ls => l ++ '\n' :: joinNl ls

/-- The scanning loop of `extract_frontmatter`: `for (i, line) in
lines.iter().enumerate().skip(1)` looks for the first subsequent line
equal to `---`; `k` is the overall index of the head of `ls` (the call
starts with `k = 1`, matching the `.skip(1)`). -/
def findClosing (k : Nat) : List (List Char) → Option Nat
  | [] => none
  | l :: ls => if l = "---".data then some k else findClosing (k + 1) ls

/-- `extract_frontmatter` of `main.rs`: absent when there are no lines
or the first line is not `---`; otherwise the joined lines strictly
between the first line and the first subsequent `---` line
(`lines[1..i].join("\n")`), absent when no closing marker exists. -/
def extract_frontmatter (content : String) : Option String :=
  match rustLines content.data with
  | [] => none
  | first :: rest =>
    if first = "---".data then
      match findClosing 1 rest with
      | some i => some ⟨joinNl (rest.take (i - 1))⟩
      | none => none
    else none

/-- The error kinds of `parse_task_file` (anyhow contexts in the source:
a failed `fs::read_to_string`, the `"No frontmatter found"` context, and
the `"Failed to parse YAML"` context). -/
inductive ParseError
  | ioError
  | missingFrontmatter
  | malformedFrontmatter
deriving DecidableEq

/-- One entry of the directory walk, carrying the three pieces of data
the code reads from it: `path.file_stem().and_then(|s| s.to_str())`,
`path.extension().and_then(|s| s.to_str())`, and the result of
`fs::read_to_string` (`none` models a read failure). -/
structure FileEntry where
  stem : Option String
  ext : Option String
  content : Option String
deriving DecidableEq

/-- `parse_task_file` of `main.rs`, parameterized by the YAML decoding
step `parseYaml` (the `serde_yaml::from_str::<Task>` call; its result's
`filename` is the serde skip-default and is overwritten with the file
stem, `"unknown"` when the stem cannot be decoded as text). -/
def parse_task_file (parseYaml : String → Option Task) (e : FileEntry) :
    Except ParseError Task :=
  match e.content with
  | none => .error .ioError
  | some content =>
    match extract_frontmatter content with
    | none => .error .missingFrontmatter
    | some frontmatter =>
      match parseYaml frontmatter with
      | none => .error .malformedFrontmatter
      | some task => .ok { task with filename := e.stem.getD "unknown" }

/-- A filesystem path, as its components. -/
abbrev FsPath := List String

/-- `Path::parent`: none for the empty path, otherwise the path with
its last component removed (purely syntactic, as in Rust). -/
def parentPath (p : FsPath) : Option FsPath :=
  match p with
  | [] => none
  | _ => some p.dropLast

/-- The filesystem as seen by the code: `Path::exists`, `Path::is_dir`,
and the ordered `Ok` entries of `WalkDir::new(path).follow_links(true)`
(the `.filter_map(|e| e.ok())` is folded into `walk`). -/
structure FS where
  pathExists : FsPath → Bool
  isDir : FsPath → Bool
  walk : FsPath → List FileEntry

/-- The extension filter of `scan_dir`:
`e.path().extension().and_then(|s| s.to_str()).map(|ext| ext.to_lowercase()) == Some("md")`. -/
def mdFilter (e : FileEntry) : Bool :=
  e.ext.map to_lowercase == some "md"

/-- The body of `scan_dir`'s loop: a successfully parsed task is pushed
unless a task with the same `filename` and `date_created` is already in
the list; a parse failure leaves the list unchanged. -/
def scanStep (parseYaml : String → Option Task) (tasks : List Task)
    (e : FileEntry) : List Task :=
  match parse_task_file parseYaml e with
  | .ok task =>
    if tasks.any fun t =>
        t.filename == task.filename && t.date_created == task.date_created
    then tasks
    else tasks ++ [task]
  | .error _ => tasks

/-- `scan_dir` of `main.rs`: returns the accumulator unchanged when the
path does not exist or is not a directory, otherwise folds the loop body
over the `.md` entries of the walk. -/
def scan_dir (parseYaml : String → Option Task) (fs : FS) (path : FsPath)
    (tasks : List Task) : List Task :=
  if !fs.pathExists path || !fs.isDir path then tasks
  else ((fs.walk path).filter mdFilter).foldl (scanStep parseYaml) tasks

/-- `collect_tasks` of `main.rs`: scan the vault path, then additionally
scan a sibling directory named `Archive` (parent of the vault path
joined with `"Archive"`) when that path exists and differs from the
vault path. The Rust function always returns `Ok`, so the `Result`
wrapper is dropped. -/
def collect_tasks (parseYaml : String → Option Task) (fs : FS)
    (vault_path : FsPath) : List Task :=
  let tasks := scan_dir parseYaml fs vault_path []
  match parentPath vault_path with
  | none => tasks
  | some parent =>
    let archive_sibling := parent ++ ["Archive"]
    if fs.pathExists archive_sibling && archive_sibling != vault_path
    then scan_dir parseYaml fs archive_sibling tasks
    else tasks

/-- The `Commands::Count` arm of `main`: the printed integer, with the
ambient current date made the explicit parameter `d`. -/
def countCommand (today overdue completed_today : Bool) (d : NaiveDate)
    (tasks : List Task) : Nat :=
  if today then (tasks.filter (Task.is_due_today d)).length
  else if overdue then (tasks.filter (Task.is_overdue d)).length
  else if completed_today then (tasks.filter (Task.is_completed_today d)).length
  else (tasks.filter fun t => !t.is_done).length

/-! ### The YAML decoding step, modelled from the spec

`serde_yaml::from_str::<Task>` is third-party code that is not part of
this repository's sources; the definitions below model it from spec
§4.2/§3. -/

/-- Splits a list at the first occurrence of `sep` (the separator is
dropped); `none` when `sep` does not occur. -/
def splitKV : List Char → Option (List Char × List Char)
  | [] => none
  | c :: rest =>
    if c = ':' then some ([], rest.dropWhile (fun a => a = ' '))
    else
      match splitKV rest with
      | some (k, v) => some (c :: k, v)
      | none => none

/-- Modelled from the spec: the mapping-decoding part of the missing
`serde_yaml` deserializer — each line of the block holding a
`key: value` pair (the value with leading spaces dropped); lines
without a `:` contribute no field. -/
def yamlFields (s : String) : List (String × String) :=
  (rustLines s.data).filterMap fun l =>
    (splitKV l).map fun kv => (⟨kv.1⟩, ⟨kv.2⟩)

/-- The value of the first field named `key`, when any. -/
def lookupField (key : String) (fields : List (String × String)) :
    Option String :=
  (fields.find? fun kv => kv.1 == key).map fun kv => kv.2

/-- The numeric value of a nonempty all-digit character list. -/
def digitsToNat (l : List Char) : Option Nat :=
  if l.isEmpty then none
  else
    l.foldl
      (fun acc c =>
        acc.bind fun n => if c.isDigit then some (n * 10 + (c.toNat - 48)) else none)
      (some 0)

/-- Splits a character list at every occurrence of `sep`. -/
def splitOnChar (sep : Char) : List Char → List (List Char)
  | [] => [[]]
  | c :: cs =>
    if c = sep then [] :: splitOnChar sep cs
    else
      match splitOnChar sep cs with
      | l :: ls => (c :: l) :: ls
      | [] => [[c]]

/-- Modelled from the spec: the ISO calendar-date decoding of the
missing `serde_yaml` deserializer for `chrono::NaiveDate` fields —
4-digit year, 2-digit month, 2-digit day, dash-separated; the date is
encoded into the `NaiveDate` model order-faithfully. -/
def parseDate (s : String) : Option NaiveDate :=
  match splitOnChar '-' s.data with
  | [y, m, d] =>
    if y.length = 4 && m.length = 2 && d.length = 2 then
      match digitsToNat y, digitsToNat m, digitsToNat d with
      | some yn, some mn, some dn => some (Int.ofNat (yn * 10000 + mn * 100 + dn))
      | _, _, _ => none
    else none
  | _ => none

/-- An optional calendar-date field: absent is fine, present but not in
the date format fails the whole decode (spec §4.2). -/
def optDateField (key : String) (fields : List (String × String)) :
    Option (Option NaiveDate) :=
  match lookupField key fields with
  | none => some none
  | some v => (parseDate v).map some

/-- Modelled from the spec: the missing `serde_yaml::from_str::<Task>`
call — `status` is required (its absence is a decode failure), the
optional fields default to absent, `tags`/`projects` default to empty
(their sequence decoding is outside the scope of this model), the
external names `dateCreated`/`completedDate`/`taskSourceType` map to
the corresponding attributes, and `filename` is the serde skip-default
(overwritten by the caller). -/
def parseYamlTask (s : String) : Option Task :=
  let fields := yamlFields s
  match lookupField "status" fields with
  | none => none
  | some status =>
    match optDateField "due" fields, optDateField "completedDate" fields with
    | some due, some completed =>
      some
        { filename := ""
          status := status
          priority := lookupField "priority" fields
          date_created := lookupField "dateCreated" fields
          tags := []
          projects := []
          due := due
          completed_date := completed
          task_source_type := lookupField "taskSourceType" fields }
    | _, _ => none

/-! ### Theorems -/

/-- A task whose only non-default field is its status. -/
def statusOnly (s : String) : Task :=
  { filename := "t", status := s }

/-- C2: for every task and current date, `is_overdue` holds iff the due
date is present, strictly before today, and the task is not done; in
particular a done task is never overdue. -/
theorem is_overdue_iff (t : Task) (today : NaiveDate) :
    (t.is_overdue today = true ↔
      ∃ d, t.due = some d ∧ d < today ∧ t.is_done = false) ∧
    (t.is_done = true → t.is_overdue today = false) := by
  constructor
  · cases h : t.due with
    | none => simp [Task.is_overdue, h]
    | some d0 =>
      simp [Task.is_overdue, h]
      tauto
  · intro hdone
    cases h : t.due with
    | none => simp [Task.is_overdue, h]
    | some d0 => simp [Task.is_overdue, h, hdone]

/-- C7: for every task and every single current date, `is_due_today`
and `is_overdue` are never both true: a task due exactly today is not
overdue. -/
theorem due_today_overdue_exclusive (t : Task) (today : NaiveDate) :
    (t.is_due_today today && t.is_overdue today) = false := by
  cases h : t.due with
  | none => simp [Task.is_due_today, Task.is_overdue, h]
  | some d0 =>
    simp only [Task.is_due_today, Task.is_overdue, h]
    by_cases hq : d0 = today
    · subst hq; simp
    · simp [hq]

/-- C8: `is_done` holds iff the lowercased status is `done`,
`completed` or `x`; the listed concrete statuses behave as the spec
says. -/
theorem is_done_spec :
    (∀ t : Task, t.is_done = true ↔
        (to_lowercase t.status = "done" ∨ to_lowercase t.status = "completed" ∨
          to_lowercase t.status = "x")) ∧
    (statusOnly "Done").is_done = true ∧
    (statusOnly "DONE").is_done = true ∧
    (statusOnly "x").is_done = true ∧
    (statusOnly "X").is_done = true ∧
    (statusOnly "completed").is_done = true ∧
    (statusOnly "in-progress").is_done = false := by
  refine ⟨fun t => ?_, by decide, by decide, by decide, by decide, by decide,
    by decide⟩
  simp [Task.is_done]
  tauto

/-- C3: in the count command the selectors resolve by precedence
due-today, then overdue, then completed-today, with pending (not done)
as the default; the printed integer is the number of tasks satisfying
the selected predicate. -/
theorem countCommand_precedence (today overdue completed_today : Bool)
    (d : NaiveDate) (tasks : List Task) :
    (today = true →
      countCommand today overdue completed_today d tasks =
        (tasks.filter (Task.is_due_today d)).length) ∧
    (today = false → overdue = true →
      countCommand today overdue completed_today d tasks =
        (tasks.filter (Task.is_overdue d)).length) ∧
    (today = false → overdue = false → completed_today = true →
      countCommand today overdue completed_today d tasks =
        (tasks.filter (Task.is_completed_today d)).length) ∧
    (today = false → overdue = false → completed_today = false →
      countCommand today overdue completed_today d tasks =
        (tasks.filter fun t => !t.is_done).length) := by
  refine ⟨?_, ?_, ?_, ?_⟩ <;> intros <;> subst_vars <;> simp [countCommand]

theorem findClosing_eq_none (ls : List (List Char))
    (hnone : ∀ l ∈ ls, l ≠ "---".data) : ∀ k, findClosing k ls = none := by
  induction ls with
  | nil => intro k; rfl
  | cons l ls ih =>
    intro k
    have h1 : l ≠ "---".data := hnone l (by simp)
    simp only [findClosing, h1, if_false]
    exact ih (fun x hx => hnone x (by simp [hx])) (k + 1)

theorem findClosing_eq_some (ls : List (List Char)) :
    ∀ k i, i < ls.length → ls[i]? = some ("---".data) →
      (∀ j, j < i → ls[j]? ≠ some ("---".data)) →
      findClosing k ls = some (k + i) := by
  induction ls with
  | nil => intro k i hi _ _; simp at hi
  | cons l ls ih =>
    intro k i hi hmem hfirst
    cases i with
    | zero =>
      simp only [List.getElem?_cons_zero, Option.some.injEq] at hmem
      simp [findClosing, hmem]
    | succ n =>
      have hl : l ≠ "---".data := by
        have h0 := hfirst 0 (Nat.succ_pos n)
        simpa using h0
      have hrec := ih (k + 1) n (by simpa using hi) (by simpa using hmem)
        (fun j hj => by
          have := hfirst (j + 1) (Nat.succ_lt_succ hj)
          simpa using this)
      have harith : k + 1 + n = k + (n + 1) := by omega
      simp only [findClosing, hl, if_false]
      rw [hrec, harith]

theorem findClosing_bounds (ls : List (List Char)) :
    ∀ k i, findClosing k ls = some i →
      k ≤ i ∧ i - k < ls.length ∧ ls[i - k]? = some ("---".data) := by
  induction ls with
  | nil => intro k i h; simp [findClosing] at h
  | cons l ls ih =>
    intro k i h
    by_cases hl : l = "---".data
    · simp only [findClosing, hl, if_true, Option.some.injEq] at h
      subst h
      exact ⟨Nat.le_refl _, by simp, by simp [hl]⟩
    · simp only [findClosing, hl, if_false] at h
      obtain ⟨h1, h2, h3⟩ := ih (k + 1) i h
      refine ⟨by omega, by simp; omega, ?_⟩
      have harith : i - k = (i - (k + 1)) + 1 := by omega
      rw [harith]
      simpa using h3

/-- C4: `extract_frontmatter` is absent on the empty input, on any
input whose first line is not exactly `---`, and on any input whose
first line is `---` but with no later line equal to `---`. -/
theorem extract_frontmatter_absent (content : String)
    (h : content = "" ∨
      (rustLines content.data).head? ≠ some ("---".data) ∨
      ((rustLines content.data).head? = some ("---".data) ∧
        ∀ l ∈ (rustLines content.data).tail, l ≠ "---".data)) :
    extract_frontmatter content = none := by
  rcases h with rfl | h | ⟨hhead, htail⟩
  · rfl
  · unfold extract_frontmatter
    cases hl : rustLines content.data with
    | nil => rfl
    | cons first rest =>
      rw [hl] at h
      have hf : first ≠ "---".data := by simpa using h
      simp [hf]
  · unfold extract_frontmatter
    cases hl : rustLines content.data with
    | nil => rfl
    | cons first rest =>
      rw [hl] at hhead htail
      have hf : first = "---".data := by simpa using hhead
      have hfc : findClosing 1 rest = none :=
        findClosing_eq_none rest (by simpa using htail) 1
      simp [hf, hfc]

theorem extract_frontmatter_absent_witness :
    extract_frontmatter "hello" = none :=
  extract_frontmatter_absent "hello" (Or.inr (Or.inl (by decide)))

/-- C5: when the first line is `---` and the first later `---` line sits
at index `k` of the remaining lines (overall line index `k + 1`),
`extract_frontmatter` returns the lines strictly between the two
markers joined with newlines. -/
theorem extract_frontmatter_found (content : String)
    (rest : List (List Char)) (k : Nat)
    (hl : rustLines content.data = "---".data :: rest)
    (hk : k < rest.length)
    (hmem : rest[k]? = some ("---".data))
    (hfirst : ∀ j, j < k → rest[j]? ≠ some ("---".data)) :
    extract_frontmatter content = some ⟨joinNl (rest.take k)⟩ := by
  have hfc : findClosing 1 rest = some (1 + k) :=
    findClosing_eq_some rest 1 k hk hmem hfirst
  unfold extract_frontmatter
  rw [hl]
  simp [hfc]

theorem extract_frontmatter_found_witness :
    extract_frontmatter "---\nA\nB\n---\ntrailer" = some "A\nB" := by
  have h := extract_frontmatter_found "---\nA\nB\n---\ntrailer"
    ["A".data, "B".data, "---".data, "trailer".data] 2
    (by decide) (by decide) (by decide) (by decide)
  exact h.trans (by decide)

/-- C9: `extract_frontmatter` is total (it is a Lean function) and the
slice it takes is in bounds: either it returns `none`, or the closing
marker sits at a line index `i` with `1 ≤ i < #lines` and the result is
the join of the lines strictly between the markers. -/
theorem extract_frontmatter_total (content : String) :
    extract_frontmatter content = none ∨
    ∃ i, 1 ≤ i ∧ i < (rustLines content.data).length ∧
      (rustLines content.data)[i]? = some ("---".data) ∧
      extract_frontmatter content =
        some ⟨joinNl (((rustLines content.data).drop 1).take (i - 1))⟩ := by
  unfold extract_frontmatter
  cases hl : rustLines content.data with
  | nil => exact Or.inl rfl
  | cons first rest =>
    by_cases hf : first = "---".data
    · cases hfc : findClosing 1 rest with
      | none => exact Or.inl (by simp [hf, hfc])
      | some i =>
        obtain ⟨h1, h2, h3⟩ := findClosing_bounds rest 1 i hfc
        refine Or.inr ⟨i, h1, by simp; omega, ?_, ?_⟩
        · have harith : i = (i - 1) + 1 := by omega
          rw [harith]
          simpa using h3
        · simp [hf, hfc]
    · exact Or.inl (by simp [hf])

/-- C10: when the first two lines are both `---`, the extractor returns
a present but empty block; decoding the empty block fails (no `status`
field), so such a file fails as malformed frontmatter — not as missing
frontmatter — and the collector's loop body drops it. -/
theorem empty_frontmatter_malformed (content : String)
    (rest : List (List Char))
    (hl : rustLines content.data = "---".data :: "---".data :: rest) :
    extract_frontmatter content = some "" ∧
    parseYamlTask "" = none ∧
    (∀ e : FileEntry, e.content = some content →
      parse_task_file parseYamlTask e = .error .malformedFrontmatter) ∧
    (∀ (tasks : List Task) (e : FileEntry), e.content = some content →
      scanStep parseYamlTask tasks e = tasks) := by
  have hext : extract_frontmatter content = some "" := by
    unfold extract_frontmatter
    rw [hl]
    simp [findClosing, joinNl]
  have hpy : parseYamlTask "" = none := by decide
  have hparse : ∀ e : FileEntry, e.content = some content →
      parse_task_file parseYamlTask e = .error .malformedFrontmatter := by
    intro e he
    simp [parse_task_file, he, hext, hpy]
  refine ⟨hext, hpy, hparse, ?_⟩
  intro tasks e he
  unfold scanStep
  rw [hparse e he]

theorem empty_frontmatter_malformed_witness :
    parse_task_file parseYamlTask
      { stem := some "e", ext := some "md", content := some "---\n---\n" } =
      .error .malformedFrontmatter :=
  (empty_frontmatter_malformed "---\n---\n" [] (by decide)).2.2.1 _ rfl

/-- Distinct deduplication identity: the two tasks differ in `filename`
or in `date_created`. -/
def DistinctId (a b : Task) : Prop :=
  ¬(a.filename = b.filename ∧ a.date_created = b.date_created)

theorem scanStep_pairwise (parseYaml : String → Option Task)
    (tasks : List Task) (e : FileEntry)
    (h : tasks.Pairwise DistinctId) :
    (scanStep parseYaml tasks e).Pairwise DistinctId := by
  unfold scanStep
  cases parse_task_file parseYaml e with
  | error _ => exact h
  | ok task =>
    by_cases hdup : (tasks.any fun t =>
        t.filename == task.filename && t.date_created == task.date_created) = true
    · simp only [hdup, if_true]
      exact h
    · simp only [Bool.not_eq_true] at hdup
      simp only [hdup, Bool.false_eq_true, if_false]
      rw [List.pairwise_append]
      refine ⟨h, List.pairwise_singleton _ _, ?_⟩
      intro a ha b hb
      simp only [List.mem_singleton] at hb
      subst hb
      simp only [List.any_eq_false, Bool.and_eq_true, beq_iff_eq, not_and] at hdup
      intro hid
      exact hdup a ha hid.1 hid.2

theorem foldl_scanStep_pairwise (parseYaml : String → Option Task) :
    ∀ (es : List FileEntry) (tasks : List Task),
      tasks.Pairwise DistinctId →
      (es.foldl (scanStep parseYaml) tasks).Pairwise DistinctId := by
  intro es
  induction es with
  | nil => intro tasks h; exact h
  | cons e es ih =>
    intro tasks h
    exact ih _ (scanStep_pairwise parseYaml tasks e h)

theorem scan_dir_pairwise (parseYaml : String → Option Task) (fs : FS)
    (path : FsPath) (tasks : List Task)
    (h : tasks.Pairwise DistinctId) :
    (scan_dir parseYaml fs path tasks).Pairwise DistinctId := by
  unfold scan_dir
  by_cases hc : (!fs.pathExists path || !fs.isDir path) = true
  · simp only [hc, if_true]
    exact h
  · simp only [Bool.not_eq_true] at hc
    simp only [hc, Bool.false_eq_true, if_false]
    exact foldl_scanStep_pairwise parseYaml _ tasks h

theorem scanStep_extend (parseYaml : String → Option Task)
    (tasks : List Task) (e : FileEntry) :
    ∃ new, scanStep parseYaml tasks e = tasks ++ new := by
  unfold scanStep
  cases parse_task_file parseYaml e with
  | error _ => exact ⟨[], by simp⟩
  | ok task =>
    by_cases hdup : (tasks.any fun t =>
        t.filename == task.filename && t.date_created == task.date_created) = true
    · exact ⟨[], by simp [hdup]⟩
    · simp only [Bool.not_eq_true] at hdup
      exact ⟨[task], by simp [hdup]⟩

theorem foldl_scanStep_extend (parseYaml : String → Option Task) :
    ∀ (es : List FileEntry) (tasks : List Task),
      ∃ new, es.foldl (scanStep parseYaml) tasks = tasks ++ new := by
  intro es
  induction es with
  | nil => intro tasks; exact ⟨[], by simp⟩
  | cons e es ih =>
    intro tasks
    obtain ⟨a, ha⟩ := scanStep_extend parseYaml tasks e
    obtain ⟨b, hb⟩ := ih (scanStep parseYaml tasks e)
    rw [ha] at hb
    exact ⟨a ++ b, by simp only [List.foldl_cons, ha, hb, List.append_assoc]⟩

theorem scan_dir_extend (parseYaml : String → Option Task) (fs : FS)
    (path : FsPath) (tasks : List Task) :
    ∃ new, scan_dir parseYaml fs path tasks = tasks ++ new := by
  unfold scan_dir
  by_cases hc : (!fs.pathExists path || !fs.isDir path) = true
  · exact ⟨[], by simp [hc]⟩
  · simp only [Bool.not_eq_true] at hc
    simp only [hc, Bool.false_eq_true, if_false]
    exact foldl_scanStep_extend parseYaml _ tasks

/-- C6: the collected sequence never holds two tasks with the same
deduplication identity (`filename`, `date_created`); moreover a scan
only ever appends to the already-collected tasks (an earlier record is
never replaced), so it is the first encountered record of an identity
that is retained. -/
theorem collect_tasks_dedup (parseYaml : String → Option Task) (fs : FS)
    (root : FsPath) :
    (collect_tasks parseYaml fs root).Pairwise DistinctId ∧
    ∀ (path : FsPath) (tasks : List Task),
      ∃ new, scan_dir parseYaml fs path tasks = tasks ++ new := by
  refine ⟨?_, fun path tasks => scan_dir_extend parseYaml fs path tasks⟩
  have h0 : (scan_dir parseYaml fs root []).Pairwise DistinctId :=
    scan_dir_pairwise parseYaml fs root [] List.Pairwise.nil
  unfold collect_tasks
  cases hp : parentPath root with
  | none => exact h0
  | some parent =>
    dsimp only
    by_cases hc : (fs.pathExists (parent ++ ["Archive"]) &&
        (parent ++ ["Archive"]) != root) = true
    · simp only [hc, if_true]
      exact scan_dir_pairwise parseYaml fs _ _ h0
    · simp only [Bool.not_eq_true] at hc
      simp only [hc, Bool.false_eq_true, if_false]
      exact h0

/-- A vault layout refuting C1 as stated: the root `vault/Tasks` does
not exist, but the sibling `vault/Archive` does and holds one valid
note. -/
def cexFS : FS :=
  { pathExists := fun p => p == ["vault"] || p == ["vault", "Archive"]
    isDir := fun p => p == ["vault"] || p == ["vault", "Archive"]
    walk := fun p =>
      if p == ["vault", "Archive"] then
        [{ stem := some "a", ext := some "md",
           content := some "---\nstatus: todo\n---\n" }]
      else [] }

/-- C1 counterexample: the root neither exists nor is a directory, yet
`collect_tasks` still returns a task — the one found in the sibling
`Archive` directory, which is scanned regardless of the root. -/
theorem collect_tasks_bad_root_cex :
    cexFS.pathExists ["vault", "Tasks"] = false ∧
    cexFS.isDir ["vault", "Tasks"] = false ∧
    collect_tasks parseYamlTask cexFS ["vault", "Tasks"] =
      [{ filename := "a", status := "todo" }] := by
  refine ⟨rfl, rfl, by decide⟩

/-- C1 (amended): when the root does not exist or is not a directory,
and moreover its sibling `Archive` path — when the root has a parent —
does not exist, is not a directory, or is the root itself, then
`collect_tasks` yields the empty sequence. -/
theorem collect_tasks_empty_of_bad_root (parseYaml : String → Option Task)
    (fs : FS) (root : FsPath)
    (h1 : fs.pathExists root = false ∨ fs.isDir root = false)
    (h2 : ∀ parent, parentPath root = some parent →
      fs.pathExists (parent ++ ["Archive"]) = false ∨
      fs.isDir (parent ++ ["Archive"]) = false ∨
      parent ++ ["Archive"] = root) :
    collect_tasks parseYaml fs root = [] := by
  have hscan : ∀ (p : FsPath) (tasks : List Task),
      fs.pathExists p = false ∨ fs.isDir p = false →
      scan_dir parseYaml fs p tasks = tasks := by
    intro p tasks hp
    unfold scan_dir
    rcases hp with hp | hp <;> simp [hp]
  have hroot : scan_dir parseYaml fs root [] = [] := hscan root [] h1
  unfold collect_tasks
  cases hp : parentPath root with
  | none => exact hroot
  | some parent =>
    dsimp only
    by_cases hc : (fs.pathExists (parent ++ ["Archive"]) &&
        (parent ++ ["Archive"]) != root) = true
    · simp only [hc, if_true, hroot]
      rcases h2 parent hp with h | h | h
      · rw [Bool.and_eq_true] at hc
        rw [h] at hc
        exact absurd hc.1 (by simp)
      · exact hscan _ _ (Or.inr h)
      · rw [Bool.and_eq_true, bne_iff_ne] at hc
        exact absurd h hc.2
    · simp only [Bool.not_eq_true] at hc
      simp only [hc, Bool.false_eq_true, if_false]
      exact hroot

/-- A filesystem with nothing in it. -/
def emptyFS : FS :=
  { pathExists := fun _ => false
    isDir := fun _ => false
    walk := fun _ => [] }

theorem collect_tasks_empty_of_bad_root_witness :
    collect_tasks parseYamlTask emptyFS ["vault", "Tasks"] = [] :=
  collect_tasks_empty_of_bad_root parseYamlTask emptyFS ["vault", "Tasks"]
    (Or.inl rfl) (fun _ _ => Or.inl rfl)

end Crustsidian
